import Mathlib

/-!
Verification of the SAP_KGE_MSDS knowledge-graph-extraction service.

This file shallowly embeds the pure core of the repository
(`srv/graph_processor.py`, `srv/msds_validator.py`, `srv/hana_client.py`)
over `List Char` strings and proves / refutes the frozen claims about it.

Conventions:
  - Python strings are modelled as `List Char` (`Str`).
  - Python `str.strip()` / `str.strip(chars)` are modelled by dropping the
    given character class from both ends (`stripWs`, `stripQuotes`).
  - Python `str.split(sep)` (single-char separator) is `splitOnChar`.
  - Regular expressions are modelled by small explicit matchers whose
    equivalence to the greedy-backtracking Python `re` semantics is argued
    in comments next to each definition.
-/

namespace KGE

/-- Python strings, modelled as lists of characters. -/
abbrev Str := List Char

/-- A knowledge-graph triple `(subject, predicate, object)`. -/
abbrev Triple := Str × Str × Str

/-- The single-quote character, `chr 39`. -/
def squote : Char := Char.ofNat 39

/-- Python `str.strip()` whitespace class (the ASCII part of `\s`). -/
def isSpaceChar (c : Char) : Bool :=
  c == ' ' || c == '\t' || c == '\n' || c == '\r' ||
  c == '\x0B' || c == '\x0C'

/-- The quote class stripped by the parser: `part.strip(chr34 ++ chr39)`. -/
def isQuoteChar (c : Char) : Bool :=
  c == '"' || c == squote

/-- ASCII lower-casing, modelling Python `str.lower()` on the ASCII inputs
this repository deals with. -/
def lowerChar (c : Char) : Char :=
  if 'A' ≤ c ∧ c ≤ 'Z' then Char.ofNat (c.toNat + 32) else c

/-- Lower-case a whole string. -/
def lowerStr (s : Str) : Str := s.map lowerChar

/-- Drop characters satisfying `p` from both ends of a list
(Python `str.strip(class)`). -/
def stripClass (p : Char → Bool) (l : Str) : Str :=
  ((l.dropWhile p).reverse.dropWhile p).reverse

/-- Python `str.strip()` (whitespace). -/
def stripWs (l : Str) : Str := stripClass isSpaceChar l

/-- Python `str.strip(chr34 ++ chr39)` (surrounding quote characters). -/
def stripQuotes (l : Str) : Str := stripClass isQuoteChar l

/-- Python `s.split(c)` for a single-character separator: always returns at
least one (possibly empty) field; adjacent separators give empty fields. -/
def splitOnChar (c : Char) : Str → List Str
  | [] => [[]]
  | x :: xs =>
      if x == c then [] :: splitOnChar c xs
      else
        match splitOnChar c xs with
        | [] => [[x]]
        | y :: ys => (x :: y) :: ys

/-- Tests whether `pat` is an initial segment of `s`. -/
def leadsWith : Str → Str → Bool
  | [], _ => true
  | _ :: _, [] => false
  | p :: ps, c :: cs => p == c && leadsWith ps cs

/-- Tests whether `pat` occurs contiguously in `s` (Python `pat in s`). -/
def containsSeq (pat : Str) : Str → Bool
  | [] => pat.isEmpty
  | c :: cs => leadsWith pat (c :: cs) || containsSeq pat cs

/-- The text before the first occurrence of `pat`
(Python `s.split(pat)[0]`; the whole of `s` when `pat` does not occur). -/
def takeBeforeSeq (pat : Str) : Str → Str
  | [] => []
  | c :: cs => if leadsWith pat (c :: cs) then [] else c :: takeBeforeSeq pat cs

/-- Index of the last occurrence of `c` (Python `s.rfind(c)`),
`none` when absent. -/
def lastIdxOf (c : Char) (l : Str) : Option ℕ :=
  match l.reverse.findIdx? (· == c) with
  | some i => some (l.length - 1 - i)
  | none => none

/-!
## `GraphProcessor._parse_triples_from_response` (graph_processor.py:130-202)

The response is split on newlines; each line is stripped and then run
through four strategies in order, first success wins for that line
(`continue`); a strategy whose guard holds but whose inner shape test
fails falls through to the next strategy.
-/

/-- Strategy 1 (graph_processor.py:138-154): a stripped line of the shape
`(A, B, C)` whose inner content splits on commas into exactly three
fields; each field is whitespace-stripped, then quote-stripped. -/
def method1 (line : Str) : Option Triple :=
  if line.headD ' ' == '(' && line.getLastD ' ' == ')' then
    let content := (line.drop 1).dropLast
    let parts := (splitOnChar ',' content).map stripWs
    if parts.length == 3 then
      match parts with
      | [s, p, o] => some (stripQuotes s, stripQuotes p, stripQuotes o)
      | _ => none
    else none
  else none

/-- The lower-cased label literals of strategy 2. -/
def subjectLbl : Str := "subject:".toList
def predicateLbl : Str := "predicate:".toList
def objectLbl : Str := "object:".toList

/-- Case-insensitive literal match: drop `pat` (given lower-case) from the
front of `s`, comparing lower-cased characters. -/
def dropPrefixCI : Str → Str → Option Str
  | [], s => some s
  | _ :: _, [] => none
  | p :: ps, c :: cs => if lowerChar c == p then dropPrefixCI ps cs else none

/-- One capture group of the strategy-2 regex: greedy whitespace skip, then a
nonempty run of non-comma characters, then the comma itself.  We return the
whole pre-comma segment as the raw group; its leading whitespace differs from
the greedy-backtracking `re` group only in characters that the subsequent
`strip()` removes, so the emitted field is identical (a comment-level
equivalence argument, since `[^,]+` also matches whitespace). -/
def grabField (s : Str) : Option (Str × Str) :=
  let pre := s.takeWhile (fun x => !(x == ','))
  match s.dropWhile (fun x => !(x == ',')) with
  | [] => none
  | _ :: rest => if pre.isEmpty then none else some (pre, rest)

/-- Normalisation applied to every captured field:
`group.strip().strip(quotes)`. -/
def normField (f : Str) : Str := stripQuotes (stripWs f)

/-- The strategy-2 regex
`subject:\s*([^,]+),\s*predicate:\s*([^,]+),\s*object:\s*(.+)`
(case-insensitive) anchored at the start of `s`.  The final group is the
whole remainder after `object:`; it must be nonempty, and when it consists
only of whitespace the real engine backtracks `\s*` to capture a single
whitespace character — in both renderings the stripped field is the same,
so we return `normField` of the remainder. -/
def matchLabeledAt (s : Str) : Option Triple :=
  match dropPrefixCI subjectLbl s with
  | none => none
  | some s1 =>
    match grabField s1 with
    | none => none
    | some (g1, s2) =>
      match dropPrefixCI predicateLbl (s2.dropWhile isSpaceChar) with
      | none => none
      | some s3 =>
        match grabField s3 with
        | none => none
        | some (g2, s4) =>
          match dropPrefixCI objectLbl (s4.dropWhile isSpaceChar) with
          | none => none
          | some s5 =>
            if s5.isEmpty then none
            else some (normField g1, normField g2, normField s5)

/-- Search semantics for the strategy-2 regex: try every start position,
leftmost success wins (Python `re.search`). -/
def searchLabeled : Str → Option Triple
  | [] => matchLabeledAt []
  | c :: cs =>
    match matchLabeledAt (c :: cs) with
    | some t => some t
    | none => searchLabeled cs

/-- Strategy 2 (graph_processor.py:156-169): guarded on the three labels
occurring (case-insensitively) in the line, then the regex search. -/
def method2 (line : Str) : Option Triple :=
  if containsSeq subjectLbl (lowerStr line) &&
     containsSeq predicateLbl (lowerStr line) &&
     containsSeq objectLbl (lowerStr line) then
    searchLabeled line
  else none

/-- The literal delimiter token of strategy 3. -/
def kgDelim : Str := "\x7bKG_TRIPLE_DELIMITER\x7d".toList

/-- Strategy 3 (graph_processor.py:171-182): the text before the delimiter,
stripped, must be parenthesized with exactly three comma-separated fields;
each field is whitespace- then quote-stripped.  No nonemptiness check. -/
def method3 (line : Str) : Option Triple :=
  if containsSeq kgDelim line then
    let parts := stripWs (takeBeforeSeq kgDelim line)
    if parts.headD ' ' == '(' && parts.getLastD ' ' == ')' then
      let content := (parts.drop 1).dropLast
      let tp := (splitOnChar ',' content).map (fun p => stripQuotes (stripWs p))
      if tp.length == 3 then
        match tp with
        | [a, b, c] => some (a, b, c)
        | _ => none
      else none
    else none
  else none

/-- Strategy 4 (graph_processor.py:184-200): at least two commas in the
line; content between the first `(` and the last `)`, split on commas into
at least three fields; the first three must all be nonempty. -/
def method4 (line : Str) : Option Triple :=
  if line.contains ',' && 2 ≤ (line.count ',') then
    if line.contains '(' && line.contains ')' then
      match line.findIdx? (· == '('), lastIdxOf ')' line with
      | some st, some en =>
        if st < en then
          let content := (line.take en).drop (st + 1)
          let parts := (splitOnChar ',' content).map (fun p => stripQuotes (stripWs p))
          if 3 ≤ parts.length then
            match parts with
            | s :: p :: o :: _ =>
                if !s.isEmpty && !p.isEmpty && !o.isEmpty then some (s, p, o)
                else none
            | _ => none
          else none
        else none
      | _, _ => none
    else none
  else none

/-- One line of the parsing loop: strip, then the four strategies in order. -/
def parseLine (l : Str) : Option Triple :=
  let line := stripWs l
  match method1 line with
  | some t => some t
  | none =>
    match method2 line with
    | some t => some t
    | none =>
      match method3 line with
      | some t => some t
      | none => method4 line

/-- The parser `_parse_triples_from_response` (graph_processor.py:130-202):
split the
response on newlines and collect the per-line results in order. -/
def parse_triples_from_response (response : Str) : List Triple :=
  (splitOnChar '\n' response).filterMap parseLine

/-!
## `GraphProcessor._analyze_extraction_quality` (graph_processor.py:204-248)
-/

/-- The controlled predicate vocabulary (graph_processor.py:229-231),
eleven lower-case relationship phrases. -/
def relationship_words : List Str :=
  [ "is a".toList, "has".toList, "includes".toList,
    "is classified as".toList, "is manufactured by".toList,
    "is located at".toList, "is regulated by".toList,
    "is exposed to".toList, "is protected by".toList,
    "is described by".toList, "is recommended for".toList ]

/-- Does a predicate count as correctly formatted: some vocabulary entry is
a substring of `pred.lower()` (graph_processor.py:234). -/
def predMatchesVocab (pred : Str) : Bool :=
  relationship_words.any (fun w => containsSeq w (lowerStr pred))

/-- Python dict-based counting `predicate_counts` (graph_processor.py:221-223):
an association list in first-seen key order. -/
def bumpCount : List (Str × ℕ) → Str → List (Str × ℕ)
  | [], p => [(p, 1)]
  | (q, n) :: rest, p =>
      if q = p then (q, n + 1) :: rest else (q, n) :: bumpCount rest p

/-- Occurrence counts of the predicates, keys in first-seen order. -/
def predCounts (ts : List Triple) : List (Str × ℕ) :=
  ts.foldl (fun acc t => bumpCount acc t.2.1) []

/-- The quality-metrics dictionary returned by
`_analyze_extraction_quality`.  The Python float percentage is modelled as
an exact rational (every value the code produces on the claim inputs is
exactly representable in binary floating point). -/
structure QualityMetrics where
  unique_subjects : ℕ
  unique_predicates : ℕ
  unique_objects : ℕ
  correct_format_percentage : ℚ
  most_common_predicates : List (Str × ℕ)
  deriving Repr, DecidableEq

/-- Python `round` to the nearest integer, half to even. -/
def pyRoundInt (q : ℚ) : ℤ :=
  let f := ⌊q⌋
  let r := q - f
  if r < 1 / 2 then f
  else if 1 / 2 < r then f + 1
  else if f % 2 = 0 then f else f + 1

/-- Python `round(x, 2)`. -/
def pyRound2 (q : ℚ) : ℚ := (pyRoundInt (q * 100) : ℚ) / 100

/-- The analyzer `_analyze_extraction_quality` (graph_processor.py:204-248).
Its `raw_response` argument
is accepted by the Python function but unused in every field we model. -/
def analyze_extraction_quality (ts : List Triple) : QualityMetrics :=
  if ts.isEmpty then
    { unique_subjects := 0, unique_predicates := 0, unique_objects := 0,
      correct_format_percentage := 0, most_common_predicates := [] }
  else
    let subjects := (ts.map (·.1)).dedup
    let predicates := (ts.map (·.2.1)).dedup
    let objects := (ts.map (·.2.2)).dedup
    let sorted_predicates :=
      (predCounts ts).mergeSort (fun a b => decide (b.2 ≤ a.2))
    let correct_format_count := ts.countP (fun t => predMatchesVocab t.2.1)
    let correct_format_percentage : ℚ :=
      (correct_format_count : ℚ) / (ts.length : ℚ) * 100
    { unique_subjects := subjects.length,
      unique_predicates := predicates.length,
      unique_objects := objects.length,
      correct_format_percentage := pyRound2 correct_format_percentage,
      most_common_predicates := sorted_predicates.take 5 }

/-!
## `HANAClient._to_iri` (hana_client.py:423-429)

The Python source substitutes on the raw-string pattern
`[^a-zA-Z0-9\\-_\\.]`.  Inside the character class, each `\\` is an escaped
literal backslash, so the class reads: `a-z`, `A-Z`, `0-9`, backslash, the
RANGE backslash(0x5C)..underscore(0x5F) — i.e. the four characters
backslash, right bracket, caret, underscore — another backslash, and a
literal dot.  The hyphen is consumed as the range operator and is NOT in
the kept class. -/

/-- The set of characters the `_to_iri` regex keeps verbatim. -/
def iriKeep (c : Char) : Bool :=
  ('a' ≤ c && c ≤ 'z') || ('A' ≤ c && c ≤ 'Z') || ('0' ≤ c && c ≤ '9') ||
  (0x5C ≤ c.toNat && c.toNat ≤ 0x5F) || c == '.'

/-- The upper-case hexadecimal digit for `n < 16`. -/
def hexChar (n : ℕ) : Char :=
  if n < 10 then Char.ofNat (48 + n) else Char.ofNat (55 + n)

/-- Upper-case hexadecimal digits of `n`, most significant first, by fuel
(a `Char` codepoint needs at most six nibbles; eight is safely enough). -/
def hexDigitsAux : ℕ → ℕ → Str → Str
  | 0, _, acc => acc
  | fuel + 1, n, acc =>
      if n = 0 then acc else hexDigitsAux fuel (n / 16) (hexChar (n % 16) :: acc)

/-- Upper-case hexadecimal rendering of `n` (no padding). -/
def hexDigits (n : ℕ) : Str :=
  if n = 0 then ['0'] else hexDigitsAux 8 n []

/-- Python `f"%{ord(c):02X}"`: percent, then the uppercase hex codepoint
padded to at least two digits. -/
def pctEncode (c : Char) : Str :=
  let ds := hexDigits c.toNat
  let ds := if ds.length < 2 then '0' :: ds else ds
  '%' :: ds

/-- The IRI minter `_to_iri` (hana_client.py:423-429) with the default base
`http://msds.com/`. -/
def to_iri (value : Str) : Str :=
  let encoded := value.flatMap (fun c => if iriKeep c then [c] else pctEncode c)
  '<' :: ("http://msds.com/".toList ++ encoded ++ ['>'])

/-!
## Node role groups (`_create_graph_visualization`, graph_processor.py:304-326,
and `_get_node_type`, graph_processor.py:397-402)

Python builds `set`s of subjects / predicates / objects and the four group
lists by set difference and intersection; only membership is ever consulted
(`node in nodes`), so the groups are modelled as lists with set-difference /
intersection by membership filters. -/

def subjectsOf (ts : List Triple) : List Str := ts.map (·.1)
def predicatesOf (ts : List Triple) : List Str := ts.map (·.2.1)
def objectsOf (ts : List Triple) : List Str := ts.map (·.2.2)

/-- Membership-wise set difference on lists. -/
def setDiff (a b : List Str) : List Str := a.filter (fun x => decide (x ∉ b))

/-- Membership-wise set intersection on lists. -/
def setInter (a b : List Str) : List Str := a.filter (fun x => decide (x ∈ b))

/-- The `node_groups` dictionary (graph_processor.py:320-326). -/
structure NodeGroups where
  predicates : List Str
  subjects : List Str
  objects : List Str
  shared : List Str

/-- graph_processor.py:320-326. -/
def nodeGroupsOf (ts : List Triple) : NodeGroups where
  predicates := predicatesOf ts
  subjects := setDiff (setDiff (subjectsOf ts) (predicatesOf ts)) (objectsOf ts)
  objects := setDiff (setDiff (objectsOf ts) (subjectsOf ts)) (predicatesOf ts)
  shared := setDiff (setInter (subjectsOf ts) (objectsOf ts)) (predicatesOf ts)

/-- The node set of the `networkx` digraph: every subject, predicate and
object of every triple (graph_processor.py:309-314). -/
def nodesOf (ts : List Triple) : List Str :=
  ts.flatMap (fun t => [t.1, t.2.1, t.2.2])

/-- The role lookup `_get_node_type` (graph_processor.py:397-402): first
group (in the
dictionary insertion order predicates, subjects, objects, shared) that
contains the node, else `unknown`. -/
def get_node_type (node : Str) (g : NodeGroups) : String :=
  if node ∈ g.predicates then "predicates"
  else if node ∈ g.subjects then "subjects"
  else if node ∈ g.objects then "objects"
  else if node ∈ g.shared then "shared"
  else "unknown"

/-!
## `MSDSValidator` (msds_validator.py)

The section patterns use only these regex constructs: literal characters,
`\s*`, `[:\.\-\s]*`, `\.` and `.*`.  They are embedded as token lists over a
three-constructor alphabet and decided by a backtracking matcher that is
existence-equivalent to `re.search` (greediness never changes whether a
match exists).  `re.MULTILINE` is a no-op here (no `^`/`$`), and
`re.IGNORECASE` is a no-op because `_validate_sections` lowercases the text
first and every pattern literal is lower-case. -/

/-- One regex token of the section patterns. -/
inductive Tok where
  | lit (c : Char)
  | clsStar (cs : List Char)
  | anyStar
  deriving Repr, DecidableEq

/-- Token for a whitespace-star run, regex `\s*`. -/
def wsStar : Tok := Tok.clsStar [' ', '\t', '\n', '\r', '\x0B', '\x0C']

/-- Token for the separator run after a section number, regex `[:\.\-\s]*`. -/
def secSep : Tok :=
  Tok.clsStar ([':', '.', '-'] ++ [' ', '\t', '\n', '\r', '\x0B', '\x0C'])

/-- A literal word as a token list. -/
def lits (s : String) : List Tok := s.toList.map Tok.lit

/-- Backtracking loop for a starred token: try the continuation `k` at the
current suffix, else consume one admissible character and repeat. -/
def tryStar (ok : Char → Bool) (k : Str → Bool) : Str → Bool
  | [] => k []
  | x :: xs => k (x :: xs) || (ok x && tryStar ok k xs)

/-- Does the token list match some prefix of `s`?  `.*` never crosses a
newline (no `re.DOTALL`). -/
def matchToks : List Tok → Str → Bool
  | [], _ => true
  | Tok.lit c :: ts, s =>
      (match s with
       | [] => false
       | x :: xs => c == x && matchToks ts xs)
  | Tok.clsStar cs :: ts, s => tryStar (fun x => cs.contains x) (matchToks ts) s
  | Tok.anyStar :: ts, s => tryStar (fun x => !(x == '\n')) (matchToks ts) s

/-- Search semantics (Python `re.search`): does the token list match
starting at some position? -/
def searchToks (ts : List Tok) : Str → Bool
  | [] => matchToks ts []
  | c :: cs => matchToks ts (c :: cs) || searchToks ts cs

/-- The table `REQUIRED_SECTIONS` (msds_validator.py:15-32). -/
def REQUIRED_SECTIONS : List (ℕ × String) :=
  [ (1, "Identification"),
    (2, "Hazard(s) Identification"),
    (3, "Composition/Information on Ingredients"),
    (4, "First-Aid Measures"),
    (5, "Fire-Fighting Measures"),
    (6, "Accidental Release Measures"),
    (7, "Handling and Storage"),
    (8, "Exposure Controls/Personal Protection"),
    (9, "Physical and Chemical Properties"),
    (10, "Stability and Reactivity"),
    (11, "Toxicological Information"),
    (12, "Ecological Information"),
    (13, "Disposal Considerations"),
    (14, "Transport Information"),
    (15, "Regulatory Information"),
    (16, "Other Information") ]

/-- The table `SECTION_PATTERNS` (msds_validator.py:35-132), one regex per
line of the
source, in source order. -/
def SECTION_PATTERNS (n : ℕ) : List (List Tok) :=
  if n = 1 then
    [ lits "section" ++ [wsStar] ++ lits "1" ++ [secSep] ++ lits "identification",
      lits "product" ++ [wsStar] ++ lits "identification",
      lits "identification" ++ [wsStar] ++ lits "of" ++ [wsStar] ++ lits "the" ++ [wsStar] ++ lits "substance",
      lits "1." ++ [wsStar] ++ lits "identification" ]
  else if n = 2 then
    [ lits "section" ++ [wsStar] ++ lits "2" ++ [secSep] ++ lits "hazard",
      lits "hazard" ++ [Tok.anyStar] ++ lits "identification",
      lits "classification" ++ [Tok.anyStar] ++ lits "hazard",
      lits "2." ++ [wsStar] ++ lits "hazard" ]
  else if n = 3 then
    [ lits "section" ++ [wsStar] ++ lits "3" ++ [secSep] ++ lits "composition",
      lits "composition" ++ [Tok.anyStar] ++ lits "ingredients",
      lits "information" ++ [Tok.anyStar] ++ lits "ingredients",
      lits "3." ++ [wsStar] ++ lits "composition" ]
  else if n = 4 then
    [ lits "section" ++ [wsStar] ++ lits "4" ++ [secSep] ++ lits "first" ++ [Tok.anyStar] ++ lits "aid",
      lits "first" ++ [Tok.anyStar] ++ lits "aid" ++ [Tok.anyStar] ++ lits "measures",
      lits "emergency" ++ [Tok.anyStar] ++ lits "first" ++ [Tok.anyStar] ++ lits "aid",
      lits "4." ++ [wsStar] ++ lits "first" ++ [Tok.anyStar] ++ lits "aid" ]
  else if n = 5 then
    [ lits "section" ++ [wsStar] ++ lits "5" ++ [secSep] ++ lits "fire",
      lits "fire" ++ [Tok.anyStar] ++ lits "fighting" ++ [Tok.anyStar] ++ lits "measures",
      lits "firefighting" ++ [Tok.anyStar] ++ lits "measures",
      lits "5." ++ [wsStar] ++ lits "fire" ]
  else if n = 6 then
    [ lits "section" ++ [wsStar] ++ lits "6" ++ [secSep] ++ lits "accidental",
      lits "accidental" ++ [Tok.anyStar] ++ lits "release" ++ [Tok.anyStar] ++ lits "measures",
      lits "spill" ++ [Tok.anyStar] ++ lits "cleanup",
      lits "6." ++ [wsStar] ++ lits "accidental" ]
  else if n = 7 then
    [ lits "section" ++ [wsStar] ++ lits "7" ++ [secSep] ++ lits "handling",
      lits "handling" ++ [Tok.anyStar] ++ lits "storage",
      lits "safe" ++ [Tok.anyStar] ++ lits "handling",
      lits "7." ++ [wsStar] ++ lits "handling" ]
  else if n = 8 then
    [ lits "section" ++ [wsStar] ++ lits "8" ++ [secSep] ++ lits "exposure",
      lits "exposure" ++ [Tok.anyStar] ++ lits "controls",
      lits "personal" ++ [Tok.anyStar] ++ lits "protection",
      lits "8." ++ [wsStar] ++ lits "exposure" ]
  else if n = 9 then
    [ lits "section" ++ [wsStar] ++ lits "9" ++ [secSep] ++ lits "physical",
      lits "physical" ++ [Tok.anyStar] ++ lits "chemical" ++ [Tok.anyStar] ++ lits "properties",
      lits "physicochemical" ++ [Tok.anyStar] ++ lits "properties",
      lits "9." ++ [wsStar] ++ lits "physical" ]
  else if n = 10 then
    [ lits "section" ++ [wsStar] ++ lits "10" ++ [secSep] ++ lits "stability",
      lits "stability" ++ [Tok.anyStar] ++ lits "reactivity",
      lits "chemical" ++ [Tok.anyStar] ++ lits "stability",
      lits "10." ++ [wsStar] ++ lits "stability" ]
  else if n = 11 then
    [ lits "section" ++ [wsStar] ++ lits "11" ++ [secSep] ++ lits "toxicological",
      lits "toxicological" ++ [Tok.anyStar] ++ lits "information",
      lits "health" ++ [Tok.anyStar] ++ lits "effects",
      lits "11." ++ [wsStar] ++ lits "toxicological" ]
  else if n = 12 then
    [ lits "section" ++ [wsStar] ++ lits "12" ++ [secSep] ++ lits "ecological",
      lits "ecological" ++ [Tok.anyStar] ++ lits "information",
      lits "environmental" ++ [Tok.anyStar] ++ lits "effects",
      lits "12." ++ [wsStar] ++ lits "ecological" ]
  else if n = 13 then
    [ lits "section" ++ [wsStar] ++ lits "13" ++ [secSep] ++ lits "disposal",
      lits "disposal" ++ [Tok.anyStar] ++ lits "considerations",
      lits "waste" ++ [Tok.anyStar] ++ lits "disposal",
      lits "13." ++ [wsStar] ++ lits "disposal" ]
  else if n = 14 then
    [ lits "section" ++ [wsStar] ++ lits "14" ++ [secSep] ++ lits "transport",
      lits "transport" ++ [Tok.anyStar] ++ lits "information",
      lits "shipping" ++ [Tok.anyStar] ++ lits "information",
      lits "14." ++ [wsStar] ++ lits "transport" ]
  else if n = 15 then
    [ lits "section" ++ [wsStar] ++ lits "15" ++ [secSep] ++ lits "regulatory",
      lits "regulatory" ++ [Tok.anyStar] ++ lits "information",
      lits "legal" ++ [Tok.anyStar] ++ lits "information",
      lits "15." ++ [wsStar] ++ lits "regulatory" ]
  else if n = 16 then
    [ lits "section" ++ [wsStar] ++ lits "16" ++ [secSep] ++ lits "other",
      lits "other" ++ [Tok.anyStar] ++ lits "information",
      lits "additional" ++ [Tok.anyStar] ++ lits "information",
      lits "16." ++ [wsStar] ++ lits "other" ]
  else []

/-- Is section `n` detected in the (lower-cased) text: some pattern of its
list matches (first-match-wins only affects which pattern is reported, not
whether the section is found). -/
def sectionFound (textLower : Str) (n : ℕ) : Bool :=
  (SECTION_PATTERNS n).any (fun p => searchToks p textLower)

/-- The validation-result dictionary of `_validate_sections`
(msds_validator.py:238-253).  `validation_details` (a per-section echo of
the found flags and patterns tried) is not modelled; no claim touches it. -/
structure ValidationResult where
  success : Bool
  is_valid_msds : Bool
  validation_score : ℚ
  found_sections : List (ℕ × String)
  missing_sections : List (ℕ × String)
  sections_found_count : ℕ
  total_sections_required : ℕ
  deriving Repr, DecidableEq

/-- The validator `_validate_sections` (msds_validator.py:180-253).  Its
`found_sections` and
`missing_sections` keep the iteration order of `REQUIRED_SECTIONS`
(ascending section number); the Python float score is modelled as an exact
rational (`n/16*100` is exactly representable for every `n`). -/
def validate_sections (text : Str) : ValidationResult :=
  let textLower := lowerStr text
  let found := REQUIRED_SECTIONS.filter (fun s => sectionFound textLower s.1)
  let missing := REQUIRED_SECTIONS.filter (fun s => !(found.any (fun f => f.1 == s.1)))
  let found_count := found.length
  let total_count := REQUIRED_SECTIONS.length
  { success := true
    is_valid_msds := missing.length == 0
    validation_score := (found_count : ℚ) / (total_count : ℚ) * 100
    found_sections := found
    missing_sections := missing
    sections_found_count := found_count
    total_sections_required := total_count }

/-- The result of `validate_pdf` (msds_validator.py:138-178): either the
success dictionary (the `_validate_sections` result plus document metadata)
or the `except`-branch error dictionary, whose `missing_sections` is the
plain key list of `REQUIRED_SECTIONS`. -/
inductive PdfResult where
  | ok (r : ValidationResult) (document_pages : ℕ) (document_length : ℕ)
  | failed (error : String) (is_valid_msds : Bool)
      (missing_sections : List ℕ) (found_sections : List Str)
  deriving Repr, DecidableEq

/-- The page-concatenation loop of `validate_pdf`
(msds_validator.py:154-156): `full_text += " " + page`. -/
def combinePages (pages : List Str) : Str :=
  pages.foldl (fun acc page => acc ++ ' ' :: page) []

/-- The entry point `validate_pdf` (msds_validator.py:138-178).  The PDF
loader is the
external collaborator; its outcome is the `Except` argument: `ok pages` is
a successfully loaded page list, `error e` is a raised exception with
message `e`.  The broad `except` makes the function total: every exception
becomes the `failed` dictionary. -/
def validate_pdf (docs : Except String (List Str)) : PdfResult :=
  match docs with
  | .ok pages =>
      let full_text := combinePages pages
      .ok (validate_sections full_text) pages.length full_text.length
  | .error e =>
      .failed ("Failed to process PDF: " ++ e) false
        (REQUIRED_SECTIONS.map (·.1)) []

/-!
## Concrete inputs used by the claim scenarios
-/

/-- A document containing headers for sections 1-3 only
(the `1.`/`2.`/`3.` header variants of `SECTION_PATTERNS`). -/
def msds13Text : Str := "1. Identification 2. Hazard 3. Composition".toList

/-- The response of the counterexample of claim C4: strategy 2 captures an
object field containing a comma, which the round trip truncates. -/
def c4Input : Str := "subject: a, predicate: b, object: c, d".toList

/-- The line of the counterexample of claim C5: its parenthesized span contains
only two comma-separated fields, yet strategy 2 emits a triple. -/
def c5Input : Str := "subject: s, predicate: p, object: (o, x)".toList

/-- The role classification described by the specification: predicate
appearance wins outright; otherwise subject-and-object is shared; otherwise
the single role. -/
def specRole (ts : List Triple) (n : Str) : String :=
  if n ∈ predicatesOf ts then "predicates"
  else if n ∈ subjectsOf ts ∧ n ∈ objectsOf ts then "shared"
  else if n ∈ subjectsOf ts then "subjects"
  else "objects"

/-- One triple re-serialized in the form `(subject, predicate, object)`
(claim C4). -/
def serializeTriple (t : Triple) : Str :=
  '(' :: (t.1 ++ ',' :: ' ' :: (t.2.1 ++ ',' :: ' ' :: (t.2.2 ++ [')'])))

/-- Newline-join of the re-serialized lines. -/
def joinLines : List Str → Str
  | [] => []
  | [l] => l
  | l :: ls => l ++ '\n' :: joinLines ls

/-- The full re-serialization of a triple list, one triple per line. -/
def serializeAll (ts : List Triple) : Str := joinLines (ts.map serializeTriple)

/-- A field that survives the `(A, B, C)` round trip unchanged: nonempty,
free of commas and newlines, and with edge characters that the
whitespace/quote stripping of the parser leaves alone. -/
def cleanField (f : Str) : Bool :=
  !f.isEmpty &&
  f.all (fun c => !(c == ',') && !(c == '\n')) &&
  !isSpaceChar (f.headD ' ') && !isQuoteChar (f.headD ' ') &&
  !isSpaceChar (f.getLastD ' ') && !isQuoteChar (f.getLastD ' ')

/-- A triple all of whose fields are clean. -/
def cleanTriple (t : Triple) : Bool :=
  cleanField t.1 && cleanField t.2.1 && cleanField t.2.2

/-!
## Supporting lemmas
-/

theorem splitOnChar_of_not_mem {c : Char} {l : Str} (h : c ∉ l) :
    splitOnChar c l = [l] := by
  induction l with
  | nil => rfl
  | cons x xs ih =>
    simp only [List.mem_cons, not_or] at h
    have hx : (x == c) = false := by
      simp only [beq_eq_false_iff_ne]
      exact fun hh => h.1 hh.symm
    rw [splitOnChar, hx]
    simp only [Bool.false_eq_true, if_false]
    rw [ih h.2]

theorem splitOnChar_append_cons {c : Char} {a b : Str} (h : c ∉ a) :
    splitOnChar c (a ++ c :: b) = a :: splitOnChar c b := by
  induction a with
  | nil => simp [splitOnChar]
  | cons x xs ih =>
    simp only [List.mem_cons, not_or] at h
    have hx : (x == c) = false := by
      simp only [beq_eq_false_iff_ne]
      exact fun hh => h.1 hh.symm
    rw [List.cons_append, splitOnChar, hx]
    simp only [Bool.false_eq_true, if_false]
    rw [ih h.2]

theorem length_splitOnChar (c : Char) (l : Str) :
    (splitOnChar c l).length = l.count c + 1 := by
  induction l with
  | nil => rfl
  | cons x xs ih =>
    rw [splitOnChar]
    by_cases hx : (x == c) = true
    · simp [hx, ih, List.count_cons]
    · rw [Bool.not_eq_true] at hx
      simp only [hx, Bool.false_eq_true, if_false]
      cases hh : splitOnChar c xs with
      | nil => rw [hh] at ih; simp at ih
      | cons y ys =>
        rw [hh] at ih
        simp only [List.length_cons] at ih
        simp [List.length_cons, List.count_cons, hx, ih]

theorem count_stripClass_le (p : Char → Bool) (c : Char) (l : Str) :
    (stripClass p l).count c ≤ l.count c := by
  unfold stripClass
  calc (((l.dropWhile p).reverse.dropWhile p).reverse.count c)
      = ((l.dropWhile p).reverse.dropWhile p).count c := List.count_reverse c _
    _ ≤ (l.dropWhile p).reverse.count c := (List.dropWhile_sublist _).count_le c
    _ = (l.dropWhile p).count c := List.count_reverse c _
    _ ≤ l.count c := (List.dropWhile_sublist _).count_le c

theorem count_takeBeforeSeq_le (pat : Str) (c : Char) (l : Str) :
    (takeBeforeSeq pat l).count c ≤ l.count c := by
  induction l with
  | nil => simp [takeBeforeSeq]
  | cons x xs ih =>
    rw [takeBeforeSeq]
    by_cases hl : leadsWith pat (x :: xs) = true
    · simp [hl]
    · rw [Bool.not_eq_true] at hl
      simp only [hl, Bool.false_eq_true, if_false, List.count_cons]
      omega

theorem count_dropPrefixCI {pat s s2 : Str} (h : dropPrefixCI pat s = some s2)
    (c : Char) : s2.count c ≤ s.count c := by
  induction pat generalizing s with
  | nil =>
    rw [dropPrefixCI] at h
    cases h
    exact Nat.le_refl _
  | cons p ps ih =>
    cases s with
    | nil => cases h
    | cons x xs =>
      rw [dropPrefixCI] at h
      by_cases hx : (lowerChar x == p) = true
      · rw [hx] at h
        simp only [if_true] at h
        calc s2.count c ≤ xs.count c := ih h
          _ ≤ (x :: xs).count c := by
              rw [List.count_cons]
              exact Nat.le_add_right _ _
      · rw [Bool.not_eq_true] at hx
        rw [hx] at h
        simp at h

theorem count_dropWhile_le (p : Char → Bool) (c : Char) (l : Str) :
    (l.dropWhile p).count c ≤ l.count c :=
  (List.dropWhile_sublist _).count_le c

theorem dropWhile_head_false {p : Char → Bool} :
    ∀ {l : Str} {x : Char} {xs : Str}, l.dropWhile p = x :: xs → p x = false := by
  intro l
  induction l with
  | nil => intro x xs h; cases h
  | cons c cs ih =>
    intro x xs h
    rw [List.dropWhile_cons] at h
    by_cases hc : p c = true
    · rw [if_pos hc] at h
      exact ih h
    · rw [Bool.not_eq_true] at hc
      rw [hc] at h
      simp only [Bool.false_eq_true, if_false] at h
      cases h
      exact hc

/-- A successful capture group consumes exactly one comma. -/
theorem count_grabField {s g r : Str} (h : grabField s = some (g, r)) :
    s.count ',' = r.count ',' + 1 := by
  unfold grabField at h
  cases hd : s.dropWhile (fun x => !(x == ',')) with
  | nil => rw [hd] at h; cases h
  | cons y ys =>
    rw [hd] at h
    dsimp only [] at h
    by_cases hpre : (s.takeWhile (fun x => !(x == ','))).isEmpty = true
    · rw [if_pos hpre] at h; cases h
    · rw [Bool.not_eq_true] at hpre
      rw [hpre] at h
      simp only [Bool.false_eq_true, if_false] at h
      injection h with h2
      injection h2 with hg hr
      have hy2 : y = ',' := by
        have hy := dropWhile_head_false hd
        simpa using hy
      have hcount : s.count ',' =
          (s.takeWhile (fun x => !(x == ','))).count ',' + (y :: ys).count ',' := by
        calc s.count ','
            = ((s.takeWhile (fun x => !(x == ','))) ++
                (s.dropWhile (fun x => !(x == ',')))).count ',' := by
              rw [List.takeWhile_append_dropWhile]
          _ = (s.takeWhile (fun x => !(x == ','))).count ',' +
                (s.dropWhile (fun x => !(x == ','))).count ',' := by
              rw [List.count_append]
          _ = _ := by rw [hd]
      have htw : (s.takeWhile (fun x => !(x == ','))).count ',' = 0 := by
        rw [List.count_eq_zero]
        intro hmem
        have hmm := List.mem_takeWhile_imp hmem
        simp at hmm
      subst hy2
      subst hr
      rw [hcount, htw, List.count_cons]
      simp

/-- The strategy-2 regex cannot match with fewer than two commas after the
match position (it consumes two literal commas). -/
theorem matchLabeledAt_two_commas {s : Str} {t : Triple}
    (h : matchLabeledAt s = some t) : 2 ≤ s.count ',' := by
  unfold matchLabeledAt at h
  cases h1 : dropPrefixCI subjectLbl s with
  | none => rw [h1] at h; cases h
  | some s1 =>
    rw [h1] at h
    dsimp only [] at h
    cases h2 : grabField s1 with
    | none => rw [h2] at h; cases h
    | some gs2 =>
      obtain ⟨g1, s2⟩ := gs2
      rw [h2] at h
      dsimp only [] at h
      cases h3 : dropPrefixCI predicateLbl (s2.dropWhile isSpaceChar) with
      | none => rw [h3] at h; cases h
      | some s3 =>
        rw [h3] at h
        dsimp only [] at h
        cases h4 : grabField s3 with
        | none => rw [h4] at h; cases h
        | some gs4 =>
          obtain ⟨g2, s4⟩ := gs4
          have c1 : s1.count ',' ≤ s.count ',' := count_dropPrefixCI h1 ','
          have c2 : s1.count ',' = s2.count ',' + 1 := count_grabField h2
          have c3 : s3.count ',' ≤ (s2.dropWhile isSpaceChar).count ',' :=
            count_dropPrefixCI h3 ','
          have c4 : (s2.dropWhile isSpaceChar).count ',' ≤ s2.count ',' :=
            count_dropWhile_le _ _ _
          have c5 : s3.count ',' = s4.count ',' + 1 := count_grabField h4
          omega

theorem searchLabeled_two_commas : ∀ {s : Str} {t : Triple},
    searchLabeled s = some t → 2 ≤ s.count ',' := by
  intro s
  induction s with
  | nil =>
    intro t h
    rw [searchLabeled] at h
    exact matchLabeledAt_two_commas h
  | cons c cs ih =>
    intro t h
    rw [searchLabeled] at h
    cases hm : matchLabeledAt (c :: cs) with
    | some t2 => exact matchLabeledAt_two_commas hm
    | none =>
      rw [hm] at h
      calc 2 ≤ cs.count ',' := ih h
        _ ≤ (c :: cs).count ',' := by
            rw [List.count_cons]
            exact Nat.le_add_right _ _

/-- A strategy-2 success requires at least two commas in the line. -/
theorem method2_two_commas {line : Str} {t : Triple} (h : method2 line = some t) :
    2 ≤ line.count ',' := by
  unfold method2 at h
  split at h
  · exact searchLabeled_two_commas h
  · cases h

/-- A strategy-3 success requires at least two commas in the line. -/
theorem method3_two_commas {line : Str} {t : Triple} (h : method3 line = some t) :
    2 ≤ line.count ',' := by
  unfold method3 at h
  split at h
  case isFalse => cases h
  dsimp only [] at h
  split at h
  case isFalse => cases h
  split at h
  case isFalse => cases h
  split at h
  case h_2 => cases h
  next a b c heq =>
    have hlen3 : (splitOnChar ','
        ((List.drop 1 (stripWs (takeBeforeSeq kgDelim line))).dropLast)).length = 3 := by
      have hl := congrArg List.length heq
      simpa using hl
    have hcnt := length_splitOnChar ','
      ((List.drop 1 (stripWs (takeBeforeSeq kgDelim line))).dropLast)
    calc 2
        = ((List.drop 1 (stripWs (takeBeforeSeq kgDelim line))).dropLast).count ',' := by
          omega
      _ ≤ (List.drop 1 (stripWs (takeBeforeSeq kgDelim line))).count ',' :=
          (List.dropLast_sublist _).count_le ','
      _ ≤ (stripWs (takeBeforeSeq kgDelim line)).count ',' :=
          (List.drop_sublist _ _).count_le ','
      _ ≤ (takeBeforeSeq kgDelim line).count ',' := count_stripClass_le _ _ _
      _ ≤ line.count ',' := count_takeBeforeSeq_le _ _ _

theorem dropWhile_eq_self_of_head {p : Char → Bool} {l : Str}
    (hh : l ≠ [] → p (l.headD ' ') = false) : l.dropWhile p = l := by
  cases l with
  | nil => rfl
  | cons c cs =>
    have h2 := hh (by simp)
    rw [List.headD_cons] at h2
    rw [List.dropWhile_cons, h2]
    simp

theorem stripClass_eq_self {p : Char → Bool} {l : Str}
    (hh : l ≠ [] → p (l.headD ' ') = false)
    (hl : l ≠ [] → p (l.getLastD ' ') = false) :
    stripClass p l = l := by
  unfold stripClass
  rw [dropWhile_eq_self_of_head hh]
  rcases l.eq_nil_or_concat with rfl | ⟨l2, a, rfl⟩
  · rfl
  · rw [List.concat_eq_append] at hl ⊢
    have ha := hl (by simp)
    rw [List.getLastD_concat] at ha
    rw [List.reverse_append, List.reverse_singleton, List.singleton_append,
      List.dropWhile_cons, ha]
    simp

theorem stripWs_cons_space {l : Str} : stripWs (' ' :: l) = stripWs l := by
  unfold stripWs stripClass
  rw [List.dropWhile_cons, if_pos]
  rfl

theorem cleanField_props {f : Str} (h : cleanField f = true) :
    f ≠ [] ∧ (∀ c ∈ f, c ≠ ',' ∧ c ≠ '\n') ∧
    isSpaceChar (f.headD ' ') = false ∧ isQuoteChar (f.headD ' ') = false ∧
    isSpaceChar (f.getLastD ' ') = false ∧ isQuoteChar (f.getLastD ' ') = false := by
  unfold cleanField at h
  simp only [Bool.and_eq_true, Bool.not_eq_true', List.all_eq_true,
    List.isEmpty_eq_false] at h
  obtain ⟨⟨⟨⟨⟨h1, h2⟩, h3⟩, h4⟩, h5⟩, h6⟩ := h
  refine ⟨h1, ?_, h3, h4, h5, h6⟩
  intro c hc
  have hcc := h2 c hc
  simp only [Bool.and_eq_true, Bool.not_eq_true', beq_eq_false_iff_ne] at hcc
  exact hcc

theorem cleanTriple_parts {t : Triple} (h : cleanTriple t = true) :
    cleanField t.1 = true ∧ cleanField t.2.1 = true ∧ cleanField t.2.2 = true := by
  unfold cleanTriple at h
  simp only [Bool.and_eq_true] at h
  exact ⟨h.1.1, h.1.2, h.2⟩

/-- Strategy 1 rejects a parenthesized line whose content does not split
into exactly three comma-separated fields. -/
theorem method1_parenthesized_not3 {content : Str}
    (h : (splitOnChar ',' content).length ≠ 3) :
    method1 ('(' :: (content ++ [')'])) = none := by
  unfold method1
  have hlast : (('(' :: (content ++ [')'])).getLastD ' ') = ')' := by
    show ('(' :: (content ++ [')'])).getLast?.getD ' ' = ')'
    rw [← List.cons_append, List.getLast?_concat]
    rfl
  have hcond : ((('(' :: (content ++ [')'])).headD ' ' == '(') &&
      (('(' :: (content ++ [')'])).getLastD ' ' == ')')) = true := by
    rw [hlast]
    rfl
  rw [hcond]
  dsimp only []
  have hc : (('(' :: (content ++ [')'])).drop 1).dropLast = content := by
    simp
  rw [hc]
  have hlenne : (((splitOnChar ',' content).map stripWs).length == 3) = false := by
    simp only [List.length_map]
    exact beq_eq_false_iff_ne.mpr h
  rw [hlenne]
  simp

/-- Strategy 1 recovers a clean triple from its re-serialization. -/
theorem method1_serializeTriple {s p o : Str}
    (hs : cleanField s = true) (hp : cleanField p = true) (ho : cleanField o = true) :
    method1 (serializeTriple (s, p, o)) = some (s, p, o) := by
  obtain ⟨hsne, hsmem, hsh1, hsh2, hsl1, hsl2⟩ := cleanField_props hs
  obtain ⟨hpne, hpmem, hph1, hph2, hpl1, hpl2⟩ := cleanField_props hp
  obtain ⟨hone, homem, hoh1, hoh2, hol1, hol2⟩ := cleanField_props ho
  have hser : serializeTriple (s, p, o) =
      '(' :: ((s ++ ',' :: ' ' :: (p ++ ',' :: ' ' :: o)) ++ [')']) := by
    simp [serializeTriple]
  rw [hser]
  unfold method1
  have hlast : (('(' :: ((s ++ ',' :: ' ' :: (p ++ ',' :: ' ' :: o)) ++ [')'])).getLastD ' ') = ')' := by
    show ('(' :: ((s ++ ',' :: ' ' :: (p ++ ',' :: ' ' :: o)) ++ [')'])).getLast?.getD ' ' = ')'
    rw [← List.cons_append, List.getLast?_concat]
    rfl
  have hcond : ((('(' :: ((s ++ ',' :: ' ' :: (p ++ ',' :: ' ' :: o)) ++ [')'])).headD ' ' == '(') &&
      (('(' :: ((s ++ ',' :: ' ' :: (p ++ ',' :: ' ' :: o)) ++ [')'])).getLastD ' ' == ')')) = true := by
    rw [hlast]
    rfl
  rw [hcond]
  dsimp only []
  have hdrop : (('(' :: ((s ++ ',' :: ' ' :: (p ++ ',' :: ' ' :: o)) ++ [')'])).drop 1).dropLast =
      s ++ ',' :: ' ' :: (p ++ ',' :: ' ' :: o) := by
    rw [show (('(' :: ((s ++ ',' :: ' ' :: (p ++ ',' :: ' ' :: o)) ++ [')'])).drop 1) =
      (s ++ ',' :: ' ' :: (p ++ ',' :: ' ' :: o)) ++ [')'] from rfl]
    rw [List.dropLast_concat]
  rw [hdrop]
  have hnc_s : ',' ∉ s := fun hm => (hsmem ',' hm).1 rfl
  have hsplit1 : splitOnChar ',' (s ++ ',' :: (' ' :: (p ++ ',' :: ' ' :: o))) =
      s :: splitOnChar ',' (' ' :: (p ++ ',' :: ' ' :: o)) :=
    splitOnChar_append_cons hnc_s
  have hnc_p : ',' ∉ (' ' :: p) := by
    intro hm
    rcases List.mem_cons.mp hm with hm | hm
    · cases hm
    · exact (hpmem ',' hm).1 rfl
  have hsplit2 : splitOnChar ',' ((' ' :: p) ++ ',' :: (' ' :: o)) =
      (' ' :: p) :: splitOnChar ',' (' ' :: o) :=
    splitOnChar_append_cons hnc_p
  have hnc_o : ',' ∉ (' ' :: o) := by
    intro hm
    rcases List.mem_cons.mp hm with hm | hm
    · cases hm
    · exact (homem ',' hm).1 rfl
  have hsplit3 : splitOnChar ',' (' ' :: o) = [' ' :: o] :=
    splitOnChar_of_not_mem hnc_o
  have hstrip_s : stripWs s = s :=
    stripClass_eq_self (fun _ => hsh1) (fun _ => hsl1)
  have hstrip_p : stripWs (' ' :: p) = p := by
    rw [stripWs_cons_space]
    exact stripClass_eq_self (fun _ => hph1) (fun _ => hpl1)
  have hstrip_o : stripWs (' ' :: o) = o := by
    rw [stripWs_cons_space]
    exact stripClass_eq_self (fun _ => hoh1) (fun _ => hol1)
  have hq_s : stripQuotes s = s :=
    stripClass_eq_self (fun _ => hsh2) (fun _ => hsl2)
  have hq_p : stripQuotes p = p :=
    stripClass_eq_self (fun _ => hph2) (fun _ => hpl2)
  have hq_o : stripQuotes o = o :=
    stripClass_eq_self (fun _ => hoh2) (fun _ => hol2)
  rw [hsplit1]
  rw [show (' ' :: (p ++ ',' :: ' ' :: o)) = (' ' :: p) ++ ',' :: (' ' :: o) from rfl]
  rw [hsplit2, hsplit3]
  simp only [List.map_cons, List.map_nil, hstrip_s, hstrip_p, hstrip_o]
  rw [if_pos (show ((([s, p, o] : List Str).length == 3) = true) from rfl)]
  rw [hq_s, hq_p, hq_o]
  simp

theorem stripWs_serializeTriple {t : Triple} (h : cleanTriple t = true) :
    stripWs (serializeTriple t) = serializeTriple t := by
  obtain ⟨s, p, o⟩ := t
  have hser : serializeTriple (s, p, o) =
      '(' :: ((s ++ ',' :: ' ' :: (p ++ ',' :: ' ' :: o)) ++ [')']) := by
    simp [serializeTriple]
  rw [hser]
  apply stripClass_eq_self
  · intro _
    rfl
  · intro _
    show isSpaceChar (('(' :: ((s ++ ',' :: ' ' :: (p ++ ',' :: ' ' :: o)) ++ [')'])).getLast?.getD ' ') = false
    rw [← List.cons_append, List.getLast?_concat]
    rfl

/-- The per-line round trip: a clean triple re-parses to itself. -/
theorem parseLine_serializeTriple {t : Triple} (h : cleanTriple t = true) :
    parseLine (serializeTriple t) = some t := by
  obtain ⟨hs, hp, ho⟩ := cleanTriple_parts h
  unfold parseLine
  dsimp only []
  rw [stripWs_serializeTriple h]
  obtain ⟨s, p, o⟩ := t
  rw [method1_serializeTriple hs hp ho]

theorem newline_not_mem_serializeTriple {t : Triple} (h : cleanTriple t = true) :
    '\n' ∉ serializeTriple t := by
  obtain ⟨hs, hp, ho⟩ := cleanTriple_parts h
  obtain ⟨s, p, o⟩ := t
  intro hmem
  simp only [serializeTriple, List.mem_cons, List.mem_append] at hmem
  rcases hmem with h1 | h1
  · cases h1
  rcases h1 with h1 | h1
  · exact ((cleanField_props hs).2.1 '\n' h1).2 rfl
  rcases h1 with h1 | h1
  · cases h1
  rcases h1 with h1 | h1
  · cases h1
  rcases h1 with h1 | h1
  · exact ((cleanField_props hp).2.1 '\n' h1).2 rfl
  rcases h1 with h1 | h1
  · cases h1
  rcases h1 with h1 | h1
  · cases h1
  rcases h1 with h1 | h1
  · exact ((cleanField_props ho).2.1 '\n' h1).2 rfl
  · simp at h1

theorem splitOnChar_joinLines : ∀ {ls : List Str}, ls ≠ [] →
    (∀ l ∈ ls, '\n' ∉ l) → splitOnChar '\n' (joinLines ls) = ls := by
  intro ls
  induction ls with
  | nil => intro h; exact absurd rfl h
  | cons l ls2 ih =>
    intro _ hmem
    cases ls2 with
    | nil =>
      show splitOnChar '\n' l = [l]
      exact splitOnChar_of_not_mem (hmem l (by simp))
    | cons l2 ls3 =>
      show splitOnChar '\n' (l ++ '\n' :: joinLines (l2 :: ls3)) = l :: l2 :: ls3
      rw [splitOnChar_append_cons (hmem l (by simp))]
      rw [ih (by simp) (fun x hx => hmem x (by simp [hx]))]

/-- The list-level round trip: a response whose accepted triples are all
clean re-parses, after re-serialization, to the same triple list. -/
theorem parse_serializeAll : ∀ {ts : List Triple},
    (∀ t ∈ ts, cleanTriple t = true) →
    parse_triples_from_response (serializeAll ts) = ts := by
  intro ts h
  cases ts with
  | nil => decide
  | cons t ts2 =>
    unfold parse_triples_from_response serializeAll
    rw [splitOnChar_joinLines (by simp)
      (by
        intro l hl
        rw [List.mem_map] at hl
        obtain ⟨t2, ht2, rfl⟩ := hl
        exact newline_not_mem_serializeTriple (h t2 ht2))]
    rw [List.filterMap_map]
    have hfm : ∀ (l : List Triple), (∀ t ∈ l, cleanTriple t = true) →
        l.filterMap (parseLine ∘ serializeTriple) = l := by
      intro l
      induction l with
      | nil => intro _; rfl
      | cons a l2 ih =>
        intro hl
        rw [List.filterMap_cons]
        rw [show (parseLine ∘ serializeTriple) a = parseLine (serializeTriple a) from rfl]
        rw [parseLine_serializeTriple (hl a (by simp))]
        rw [ih (fun x hx => hl x (by simp [hx]))]
    exact hfm (t :: ts2) h

/-- A node is in the graph iff it is a subject, predicate or object of some
triple. -/
theorem mem_nodesOf {ts : List Triple} {n : Str} :
    n ∈ nodesOf ts ↔
      n ∈ subjectsOf ts ∨ n ∈ predicatesOf ts ∨ n ∈ objectsOf ts := by
  simp only [nodesOf, subjectsOf, predicatesOf, objectsOf,
    List.mem_flatMap, List.mem_map]
  constructor
  · rintro ⟨t, ht, hn⟩
    simp only [List.mem_cons, List.mem_singleton, List.not_mem_nil] at hn
    rcases hn with h | h | h | h
    · exact Or.inl ⟨t, ht, h.symm⟩
    · exact Or.inr (Or.inl ⟨t, ht, h.symm⟩)
    · exact Or.inr (Or.inr ⟨t, ht, h.symm⟩)
    · cases h
  · rintro (⟨t, ht, hn⟩ | ⟨t, ht, hn⟩ | ⟨t, ht, hn⟩) <;>
      exact ⟨t, ht, by simp [hn]⟩

/-!
## Claim theorems
-/

/-- Claim C2: for every input text the result of `_validate_sections`
satisfies `is_valid_msds = (missing_sections is empty)` and
`validation_score = sections_found_count / 16 * 100`; and the concrete
document with headers for sections 1-3 only scores `75/4 = 18.75` with
`missing_sections` exactly sections 4..16 in ascending order. -/
theorem validate_sections_invariant_and_scenario :
    (∀ text : Str,
      ((validate_sections text).is_valid_msds = true ↔
        (validate_sections text).missing_sections = []) ∧
      (validate_sections text).validation_score =
        ((validate_sections text).sections_found_count : ℚ) / 16 * 100) ∧
    (validate_sections msds13Text).validation_score = 75 / 4 ∧
    (validate_sections msds13Text).missing_sections.map Prod.fst =
      [4, 5, 6, 7, 8, 9, 10, 11, 12, 13, 14, 15, 16] := by
  refine ⟨fun text => ⟨?_, ?_⟩, ?_, ?_⟩
  · simp [validate_sections, List.length_eq_zero]
  · show ((REQUIRED_SECTIONS.filter _).length : ℚ) / (REQUIRED_SECTIONS.length : ℚ) * 100 = _
    rw [show (validate_sections text).sections_found_count =
        (REQUIRED_SECTIONS.filter (fun s => sectionFound (lowerStr text) s.1)).length from rfl]
    norm_num [show REQUIRED_SECTIONS.length = 16 from rfl]
  · show ((REQUIRED_SECTIONS.filter _).length : ℚ) / (REQUIRED_SECTIONS.length : ℚ) * 100 = _
    rw [show (REQUIRED_SECTIONS.filter
        (fun s => sectionFound (lowerStr msds13Text) s.1)).length = 3 by decide]
    norm_num [show REQUIRED_SECTIONS.length = 16 from rfl]
  · decide

/-- Claim C3 (refuting evaluation): the character class of `_to_iri` is
`[^a-zA-Z0-9\\-_\\.]` in a raw string, in which `\\-_` parses as a range
from backslash to underscore; consequently the hyphen is percent-encoded
as `%2D` while backslash, right bracket and caret are kept verbatim —
the opposite of the claimed `[A-Za-z0-9\-_.]` keep-set. -/
theorem to_iri_hyphen_encoded_bracket_caret_kept :
    to_iri ['-'] = "<http://msds.com/%2D>".toList ∧
    to_iri [']'] = "<http://msds.com/]>".toList ∧
    to_iri ['^'] = "<http://msds.com/^>".toList ∧
    to_iri ['_'] = "<http://msds.com/_>".toList ∧
    to_iri "a b".toList = "<http://msds.com/a%20b>".toList := by
  decide

/-- Claim C9: `validate_pdf` is total (the broad `except` turns every
loader exception into a result dictionary); a readable input yields the
`_validate_sections` success result plus metadata, and an unreadable one
yields `is_valid_msds = false`, empty `found_sections` and
`missing_sections` listing all sixteen sections. -/
theorem validate_pdf_never_raises :
    ∀ docs : Except String (List Str),
      (∀ pages, docs = .ok pages →
        validate_pdf docs =
          .ok (validate_sections (combinePages pages)) pages.length
            (combinePages pages).length ∧
        (validate_sections (combinePages pages)).success = true) ∧
      (∀ e, docs = .error e →
        validate_pdf docs =
          .failed ("Failed to process PDF: " ++ e) false
            [1, 2, 3, 4, 5, 6, 7, 8, 9, 10, 11, 12, 13, 14, 15, 16] []) := by
  intro docs
  constructor
  · rintro pages rfl
    exact ⟨rfl, rfl⟩
  · rintro e rfl
    rfl

/-- Witness for C9 at a concrete unreadable input. -/
theorem validate_pdf_never_raises_witness :
    validate_pdf (.error "not a PDF") =
      .failed ("Failed to process PDF: " ++ "not a PDF") false
        [1, 2, 3, 4, 5, 6, 7, 8, 9, 10, 11, 12, 13, 14, 15, 16] [] :=
  (validate_pdf_never_raises (.error "not a PDF")).2 "not a PDF" rfl

/-- Claim C7: for every triple list, `_get_node_type` on the groups built
by `_create_graph_visualization` realises the specified role assignment:
predicate occurrence wins outright, then shared (subject and object),
then the exclusive single role. -/
theorem get_node_type_role_assignment :
    ∀ (ts : List Triple) (n : Str),
      n ∈ nodesOf ts →
      get_node_type n (nodeGroupsOf ts) = specRole ts n := by
  intro ts n hn
  rcases mem_nodesOf.mp hn with hs | hp | ho
  all_goals
    simp only [get_node_type, nodeGroupsOf, specRole, setDiff, setInter,
      List.mem_filter, decide_eq_true_eq]
  all_goals
    by_cases hpred : n ∈ predicatesOf ts <;>
    by_cases hsub : n ∈ subjectsOf ts <;>
    by_cases hobj : n ∈ objectsOf ts <;>
    simp_all

/-- Witness for C7 at a concrete triple list and node. -/
theorem get_node_type_role_assignment_witness :
    get_node_type "b".toList (nodeGroupsOf [("a".toList, "b".toList, "c".toList)]) =
      specRole [("a".toList, "b".toList, "c".toList)] "b".toList :=
  get_node_type_role_assignment [("a".toList, "b".toList, "c".toList)] "b".toList
    (by decide)

/-- Claim C10: the four node groups are pairwise disjoint, their union is
exactly the node set of the graph, and `_get_node_type` never answers
`unknown` on a graph node. -/
theorem node_groups_partition :
    ∀ (ts : List Triple) (n : Str),
      (n ∈ nodesOf ts ↔
        (n ∈ (nodeGroupsOf ts).predicates ∨ n ∈ (nodeGroupsOf ts).subjects ∨
         n ∈ (nodeGroupsOf ts).objects ∨ n ∈ (nodeGroupsOf ts).shared)) ∧
      ¬ (n ∈ (nodeGroupsOf ts).predicates ∧ n ∈ (nodeGroupsOf ts).subjects) ∧
      ¬ (n ∈ (nodeGroupsOf ts).predicates ∧ n ∈ (nodeGroupsOf ts).objects) ∧
      ¬ (n ∈ (nodeGroupsOf ts).predicates ∧ n ∈ (nodeGroupsOf ts).shared) ∧
      ¬ (n ∈ (nodeGroupsOf ts).subjects ∧ n ∈ (nodeGroupsOf ts).objects) ∧
      ¬ (n ∈ (nodeGroupsOf ts).subjects ∧ n ∈ (nodeGroupsOf ts).shared) ∧
      ¬ (n ∈ (nodeGroupsOf ts).objects ∧ n ∈ (nodeGroupsOf ts).shared) ∧
      (n ∈ nodesOf ts → get_node_type n (nodeGroupsOf ts) ≠ "unknown") := by
  intro ts n
  simp only [nodeGroupsOf, setDiff, setInter, List.mem_filter,
    decide_eq_true_eq, mem_nodesOf, get_node_type]
  by_cases hpred : n ∈ predicatesOf ts <;>
  by_cases hsub : n ∈ subjectsOf ts <;>
  by_cases hobj : n ∈ objectsOf ts <;>
  simp_all

/-- Witness for C10 (the only hypothesis is the graph-node membership in
the final conjunct), at a concrete triple list and node. -/
theorem node_groups_partition_witness :
    get_node_type "a".toList (nodeGroupsOf [("a".toList, "b".toList, "c".toList)]) ≠
      "unknown" :=
  (node_groups_partition [("a".toList, "b".toList, "c".toList)] "a".toList).2.2.2.2.2.2.2
    (by decide)

/-- Claim C6: `_analyze_extraction_quality` returns the all-zero metrics on
an empty triple list; otherwise `correct_format_percentage` is the share of
triples whose predicate contains a vocabulary entry (case-insensitively),
times 100, rounded to two decimal places; on
`[(A, is a, B), (A, foo, C)]` it is exactly `50`. -/
theorem analyze_extraction_quality_metrics :
    analyze_extraction_quality [] =
      { unique_subjects := 0, unique_predicates := 0, unique_objects := 0,
        correct_format_percentage := 0, most_common_predicates := [] } ∧
    (∀ ts : List Triple, ts ≠ [] →
      (analyze_extraction_quality ts).correct_format_percentage =
        pyRound2 (((ts.filter (fun t => predMatchesVocab t.2.1)).length : ℚ) /
          (ts.length : ℚ) * 100)) ∧
    (analyze_extraction_quality
        [("A".toList, "is a".toList, "B".toList),
         ("A".toList, "foo".toList, "C".toList)]).correct_format_percentage = 50 := by
  have hmain : ∀ ts : List Triple, ts ≠ [] →
      (analyze_extraction_quality ts).correct_format_percentage =
        pyRound2 (((ts.filter (fun t => predMatchesVocab t.2.1)).length : ℚ) /
          (ts.length : ℚ) * 100) := by
    intro ts hts
    have hne : ts.isEmpty = false := by
      cases ts with
      | nil => exact absurd rfl hts
      | cons a l => rfl
    simp only [analyze_extraction_quality, hne, Bool.false_eq_true, if_false,
      List.countP_eq_length_filter]
  refine ⟨rfl, hmain, ?_⟩
  rw [hmain _ (by decide)]
  rw [show (List.filter (fun t => predMatchesVocab t.2.1)
      [("A".toList, "is a".toList, "B".toList),
       ("A".toList, "foo".toList, "C".toList)]).length = 1 by decide]
  rw [show (((1 : ℕ) : ℚ) / (([("A".toList, "is a".toList, "B".toList),
       ("A".toList, "foo".toList, "C".toList)] : List Triple).length : ℚ) * 100) = 50 by
    norm_num]
  rw [pyRound2, pyRoundInt]
  norm_num

/-- Witness for C6 (the nonempty-list hypothesis of the middle conjunct),
at a concrete one-triple list. -/
theorem analyze_extraction_quality_metrics_witness :
    (analyze_extraction_quality
        [("x".toList, "has".toList, "y".toList)]).correct_format_percentage =
      pyRound2 (((([("x".toList, "has".toList, "y".toList)] : List Triple).filter
          (fun t => predMatchesVocab t.2.1)).length : ℚ) /
        (([("x".toList, "has".toList, "y".toList)] : List Triple).length : ℚ) * 100) :=
  analyze_extraction_quality_metrics.2.1 _ (by decide)

/-- Strategy 4 only ever emits triples with nonempty fields (its final
guard); used by the amended claim C1. -/
theorem method4_some_nonempty {line s p o : Str}
    (h : method4 line = some (s, p, o)) :
    s ≠ [] ∧ p ≠ [] ∧ o ≠ [] := by
  unfold method4 at h
  repeat' split at h
  all_goals try (cases h)
  dsimp only [] at h
  repeat' split at h
  all_goals try (cases h)
  next hcond => simpa [List.isEmpty_iff, and_assoc] using hcond

/-- Claim C1 (refuting evaluation): strategy 1 accepts the line `(, a, b)`
and emits a triple whose subject is the empty string. -/
theorem parse_empty_subject_counterexample :
    parse_triples_from_response "(, a, b)".toList =
      [([], "a".toList, "b".toList)] ∧
    (parse_triples_from_response "(, a, b)".toList).any
      (fun t => t.1.isEmpty) = true := by
  decide

/-- Claim C1 amended: only strategy 4 guarantees nonempty fields — a
triple emitted after strategies 1-3 all declined the line has a nonempty
subject, predicate and object. -/
theorem parse_nonempty_fields_when_strategy4 :
    ∀ (l : Str) (s p o : Str),
      method1 (stripWs l) = none →
      method2 (stripWs l) = none →
      method3 (stripWs l) = none →
      parseLine l = some (s, p, o) →
      s ≠ [] ∧ p ≠ [] ∧ o ≠ [] := by
  intro l s p o h1 h2 h3 hp
  unfold parseLine at hp
  dsimp only [] at hp
  rw [h1, h2, h3] at hp
  exact method4_some_nonempty hp

/-- Witness for the amended C1 at a line that only strategy 4 accepts. -/
theorem parse_nonempty_fields_when_strategy4_witness :
    "a".toList ≠ ([] : Str) ∧ "b".toList ≠ ([] : Str) ∧ "c".toList ≠ ([] : Str) :=
  parse_nonempty_fields_when_strategy4 "noise (a, b, c) end".toList
    "a".toList "b".toList "c".toList
    (by decide) (by decide) (by decide) (by decide)

/-- Claim C4 (refuting evaluation): strategy 2 captures the comma-bearing
object `c, d`; its re-serialization `(a, b, c, d)` re-parses through
strategy 4, which truncates to `(a, b, c)` — the multisets differ. -/
theorem reparse_counterexample :
    parse_triples_from_response c4Input =
      [("a".toList, "b".toList, "c, d".toList)] ∧
    parse_triples_from_response (serializeAll (parse_triples_from_response c4Input)) =
      [("a".toList, "b".toList, "c".toList)] ∧
    (↑(parse_triples_from_response
        (serializeAll (parse_triples_from_response c4Input))) : Multiset Triple) ≠
      ↑(parse_triples_from_response c4Input) := by
  refine ⟨by decide, by decide, by decide⟩

/-- Claim C4 amended: the round trip is the identity (hence preserves the
multiset) whenever every accepted triple is clean — fields nonempty, free
of commas and newlines, and not starting or ending with whitespace or
quote characters. -/
theorem reparse_clean_multiset_id :
    ∀ response : Str,
      (∀ t ∈ parse_triples_from_response response, cleanTriple t = true) →
      (↑(parse_triples_from_response
          (serializeAll (parse_triples_from_response response))) : Multiset Triple) =
        ↑(parse_triples_from_response response) := by
  intro r h
  rw [parse_serializeAll h]

/-- Witness for the amended C4 at a concrete clean response. -/
theorem reparse_clean_multiset_id_witness :
    (↑(parse_triples_from_response
        (serializeAll (parse_triples_from_response "(WD-40, is a, Product)".toList))) :
      Multiset Triple) =
      ↑(parse_triples_from_response "(WD-40, is a, Product)".toList) :=
  reparse_clean_multiset_id "(WD-40, is a, Product)".toList (by decide)

/-- First half of claim C5: a line whose stripped form is `(A, B, C)` with
three comma-separated fields is recovered by strategy 1 as the trimmed,
quote-stripped field values. -/
theorem parseLine_wellformed_aux :
    ∀ (l content x1 x2 x3 : Str),
      stripWs l = '(' :: (content ++ [')']) →
      splitOnChar ',' content = [x1, x2, x3] →
      stripQuotes (stripWs x1) ≠ [] →
      stripQuotes (stripWs x2) ≠ [] →
      stripQuotes (stripWs x3) ≠ [] →
      parseLine l =
        some (stripQuotes (stripWs x1), stripQuotes (stripWs x2),
          stripQuotes (stripWs x3)) := by
  intro l content x1 x2 x3 hstrip hsplit _ _ _
  unfold parseLine
  dsimp only []
  rw [hstrip]
  have hm1 : method1 ('(' :: (content ++ [')'])) =
      some (stripQuotes (stripWs x1), stripQuotes (stripWs x2),
        stripQuotes (stripWs x3)) := by
    unfold method1
    have hlast : (('(' :: (content ++ [')'])).getLastD ' ') = ')' := by
      show ('(' :: (content ++ [')'])).getLast?.getD ' ' = ')'
      rw [← List.cons_append, List.getLast?_concat]
      rfl
    have hcond : ((('(' :: (content ++ [')'])).headD ' ' == '(') &&
        (('(' :: (content ++ [')'])).getLastD ' ' == ')')) = true := by
      rw [hlast]
      rfl
    rw [hcond]
    dsimp only []
    have hc : (('(' :: (content ++ [')'])).drop 1).dropLast = content := by
      simp
    rw [hc, hsplit]
    simp only [List.map_cons, List.map_nil]
    rw [if_pos (show ((([stripWs x1, stripWs x2, stripWs x3] : List Str).length == 3) = true)
      from rfl)]
    simp
  rw [hm1]

/-- The second half of claim C5 as stated is refuted here: this line's
parenthesized span `(o, x)` holds only two comma-separated fields, yet
strategy 2 emits a triple for the line. -/
theorem few_fields_counterexample :
    parse_triples_from_response c5Input =
      [("s".toList, "p".toList, "(o, x)".toList)] ∧
    (match c5Input.findIdx? (· == '('), lastIdxOf ')' c5Input with
     | some st, some en => (splitOnChar ',' ((c5Input.take en).drop (st + 1))).length
     | _, _ => 0) = 2 := by
  refine ⟨by decide, by decide⟩

/-- Amended second half of claim C5: a line that is itself a parenthesized
expression whose content splits into fewer than three comma-separated
fields yields no triple under any strategy. -/
theorem parseLine_few_fields_aux :
    ∀ (l content : Str),
      stripWs l = '(' :: (content ++ [')']) →
      (splitOnChar ',' content).length < 3 →
      parseLine l = none := by
  intro l content hstrip hlen
  have hcc : content.count ',' ≤ 1 := by
    have := length_splitOnChar ',' content
    omega
  have hcl : (stripWs l).count ',' ≤ 1 := by
    rw [hstrip]
    simp only [List.count_cons, List.count_append]
    have h1 : (('(' : Char) == ',') = false := by decide
    have h2 : ((')' : Char) == ',') = false := by decide
    simp [h1, h2, List.count_singleton, List.count_nil]
    omega
  unfold parseLine
  dsimp only []
  have hm1 : method1 (stripWs l) = none := by
    rw [hstrip]
    exact method1_parenthesized_not3 (by omega)
  rw [hm1]
  cases h2 : method2 (stripWs l) with
  | some t => exact absurd (method2_two_commas h2) (by omega)
  | none =>
    cases h3 : method3 (stripWs l) with
    | some t => exact absurd (method3_two_commas h3) (by omega)
    | none =>
      dsimp only []
      unfold method4
      have hdec : (decide (2 ≤ (stripWs l).count ',')) = false :=
        decide_eq_false (by omega)
      rw [hdec]
      simp

/-- Claim C5, with its second half amended: a stripped line `(A, B, C)`
with three comma-separated fields and nonempty normalized values is parsed
by strategy 1 to exactly those values; and a line that is itself a
parenthesized expression with fewer than three comma-separated fields
yields no triple. -/
theorem parse_wellformed_and_few_fields :
    (∀ (l content x1 x2 x3 : Str),
      stripWs l = '(' :: (content ++ [')']) →
      splitOnChar ',' content = [x1, x2, x3] →
      stripQuotes (stripWs x1) ≠ [] →
      stripQuotes (stripWs x2) ≠ [] →
      stripQuotes (stripWs x3) ≠ [] →
      parseLine l =
        some (stripQuotes (stripWs x1), stripQuotes (stripWs x2),
          stripQuotes (stripWs x3))) ∧
    (∀ (l content : Str),
      stripWs l = '(' :: (content ++ [')']) →
      (splitOnChar ',' content).length < 3 →
      parseLine l = none) :=
  ⟨parseLine_wellformed_aux, parseLine_few_fields_aux⟩

/-- Witness for C5: both halves applied at concrete lines. -/
theorem parse_wellformed_and_few_fields_witness :
    parseLine "(WD-40, is a, Product)".toList =
      some (stripQuotes (stripWs "WD-40".toList),
        stripQuotes (stripWs " is a".toList),
        stripQuotes (stripWs " Product".toList)) ∧
    parseLine "(a, b)".toList = none :=
  ⟨parse_wellformed_and_few_fields.1 "(WD-40, is a, Product)".toList
      "WD-40, is a, Product".toList
      "WD-40".toList " is a".toList " Product".toList
      (by decide) (by decide) (by decide) (by decide) (by decide),
    parse_wellformed_and_few_fields.2 "(a, b)".toList "a, b".toList
      (by decide) (by decide)⟩

end KGE
